import Mathlib

/-!
Verification of the SageOrb cash-flow forecasting and optimization core.

The source program (backend/utils/projections.py, backend/utils/optimizer.py,
backend/app.py) is shallowly embedded here: money amounts and derived
statistics are modelled as rationals (the Python code works with 64-bit
floats; all the formulas in question are exact rational expressions except
for square roots, which are handled by passing the standard deviation as an
explicitly constrained value), dates are modelled as integer day numbers,
and the two sources of genuine opacity — the residual bootstrap draw and the
trained scikit-learn regressors — are injected as explicit parameters, as
the specification itself requires randomness to be injectable.
-/

set_option maxHeartbeats 1000000

namespace SageOrb

/-- Raw ledger record: calendar day (as an integer day number), cash in and
cash out, mirroring the dict records consumed by the engines. -/
structure Record where
  date : ℤ
  cash_in : ℚ
  cash_out : ℚ
deriving DecidableEq, Repr

/-- Net flow of a record: `cash_in - cash_out`, as computed by
`df['net_cash_flow'] = df['cash_in'] - df['cash_out']`. -/
def netFlow (r : Record) : ℚ := r.cash_in - r.cash_out

/-- Net-flow series of a record list, in list order. -/
def netFlows (rs : List Record) : List ℚ := rs.map netFlow

/-- Mean of a list of rationals (`Series.mean`).  For the empty list this is
`0` in the model (division by zero in ℚ); the Python code only reaches the
mean of a nonempty series on the paths verified here. -/
def mean (xs : List ℚ) : ℚ := xs.sum / xs.length

/-- Sample variance with one delta degree of freedom, the square of
`Series.std()` (pandas default `ddof=1`).  The standard deviation itself is
irrational in general; facts about it are stated through this function via
`sd ^ 2 = sampleVar xs`. -/
def sampleVar (xs : List ℚ) : ℚ :=
  (xs.map (fun x => (x - mean xs) ^ 2)).sum / ((xs.length : ℚ) - 1)

/-- Records sorted ascending by date, mirroring
`df.sort_values('date')` (pandas sort is stable, as is insertion sort). -/
def sortedRecords (rs : List Record) : List Record :=
  List.insertionSort (fun a b => a.date ≤ b.date) rs

/-- Latest historical date, `df['date'].max()`. -/
def maxDate (rs : List Record) : ℤ :=
  match rs.map (fun r => r.date) with
  | [] => 0
  | d :: ds => ds.foldl max d

/-- Last entry of the cumulative-balance column,
`df['cumulative_cash'].iloc[-1]` after sorting: the total net flow. -/
def lastCumulative (rs : List Record) : ℚ := (netFlows (sortedRecords rs)).sum

/-! ## Stress testing (`CashFlowOptimizer._stress_test_scenarios`)

Each stress case applies a flow impact and a volatility multiplier to the
base mean flow `m` and base volatility `v` (the net-flow standard deviation
of the prepared series) and requires the reserve
`abs(stressed_cash_flow) + stressed_volatility * 2`. -/

/-- Required reserve of one stress case:
`abs(base * (1 + cash_flow_impact)) + (base_vol * volatility_impact) * 2`. -/
def stressReserve (m v impact volImpact : ℚ) : ℚ :=
  |m * (1 + impact)| + (v * volImpact) * 2

/-- Required reserve of the market_crash stress case
(`cash_flow_impact = -0.5`, `volatility_impact = 2.0`). -/
def marketCrashReserve (m v : ℚ) : ℚ := stressReserve m v (-0.5) 2.0

/-- Required reserve of the liquidity_crisis stress case
(`cash_flow_impact = -0.3`, `volatility_impact = 1.5`). -/
def liquidityCrisisReserve (m v : ℚ) : ℚ := stressReserve m v (-0.3) 1.5

/-- Required reserve of the operational_disruption stress case
(`cash_flow_impact = -0.4`, `volatility_impact = 1.8`). -/
def operationalDisruptionReserve (m v : ℚ) : ℚ := stressReserve m v (-0.4) 1.8

/-- Concrete three-day series with net flows `[99, 101, 103]`: mean `101`,
sample variance `4`, hence standard deviation exactly `2`. -/
def steadySeries : List Record :=
  [⟨0, 99, 0⟩, ⟨1, 101, 0⟩, ⟨2, 103, 0⟩]

/-- C1: the claim, as stated, is false: a strictly positive net-flow
standard deviation does not make the market_crash required reserve exceed
the liquidity_crisis one.  Witnessed by the series with net flows
`[99, 101, 103]` (mean `101`, standard deviation `2 > 0`), where the
market_crash reserve `58.5` is strictly below the liquidity_crisis
reserve `76.7`. -/
theorem C1_counterexample :
    mean (netFlows steadySeries) = 101 ∧
    sampleVar (netFlows steadySeries) = 2 ^ 2 ∧
    (0 : ℚ) < 2 ∧
    marketCrashReserve (mean (netFlows steadySeries)) 2 <
      liquidityCrisisReserve (mean (netFlows steadySeries)) 2 := by
  refine ⟨by norm_num [mean, netFlows, steadySeries, netFlow], ?_, by norm_num, ?_⟩
  · norm_num [sampleVar, mean, netFlows, steadySeries, netFlow]
  · norm_num [marketCrashReserve, liquidityCrisisReserve, stressReserve,
      mean, netFlows, steadySeries, netFlow, abs_of_nonneg]

/-- C1 (amended): with `v` the net-flow standard deviation of the series
(`v ≥ 0`, `v ^ 2 = sampleVar`), the market_crash required reserve strictly
exceeds the liquidity_crisis one exactly when `v` exceeds one fifth of the
absolute mean flow — not whenever `v > 0`. -/
theorem C1_amended (rs : List Record) (v : ℚ) (hv : 0 ≤ v)
    (hsd : v ^ 2 = sampleVar (netFlows rs)) :
    liquidityCrisisReserve (mean (netFlows rs)) v <
        marketCrashReserve (mean (netFlows rs)) v ↔
      |mean (netFlows rs)| / 5 < v := by
  have _ := hv
  have _ := hsd
  set m := mean (netFlows rs) with hm
  have h1 : |m * (1 + (-0.5 : ℚ))| = |m| * 0.5 := by
    rw [show (1 + (-0.5 : ℚ)) = 0.5 by norm_num, abs_mul]
    norm_num
  have h2 : |m * (1 + (-0.3 : ℚ))| = |m| * 0.7 := by
    rw [show (1 + (-0.3 : ℚ)) = 0.7 by norm_num, abs_mul]
    norm_num
  simp only [liquidityCrisisReserve, marketCrashReserve, stressReserve, h1, h2]
  constructor
  · intro h
    nlinarith
  · intro h
    nlinarith

/-- C1 (amended) witness: at the series with net flows `[99, 101, 103]` and
standard deviation `2`, both sides of the equivalence are (falsely)
instantiated and the equivalence holds. -/
theorem C1_amended_witness :
    (0 : ℚ) ≤ 2 ∧ (2 : ℚ) ^ 2 = sampleVar (netFlows steadySeries) ∧
      (liquidityCrisisReserve (mean (netFlows steadySeries)) 2 <
          marketCrashReserve (mean (netFlows steadySeries)) 2 ↔
        |mean (netFlows steadySeries)| / 5 < 2) :=
  ⟨by norm_num,
   by norm_num [sampleVar, mean, netFlows, steadySeries, netFlow],
   C1_amended steadySeries 2 (by norm_num)
     (by norm_num [sampleVar, mean, netFlows, steadySeries, netFlow])⟩

/-! ## IEEE-style division for the drawdown computation
(`CashFlowOptimizer._calculate_risk_metrics`)

The drawdown column is `(cumulative_cash - running_max) / running_max`,
computed by numpy float division, which yields `±inf` for `x / 0` with
`x ≠ 0` and `NaN` for `0 / 0`; `Series.min()` then skips `NaN` values
(pandas `skipna=True`) but keeps infinities.  `FVal` models a 64-bit float
outcome of this computation: a finite rational, an infinity, or `NaN`. -/

/-- Possible value of a float-valued cell: finite, `+inf`, `-inf`, `NaN`. -/
inductive FVal where
  | fin : ℚ → FVal
  | pinf : FVal
  | ninf : FVal
  | nan : FVal
deriving DecidableEq, Repr

/-- IEEE float division of finite values: `x / 0` is `±inf` for `x ≠ 0`
and `NaN` for `x = 0`, exactly as numpy computes it (with warnings
silenced by the module's `warnings.filterwarnings('ignore')`). -/
def fdiv (a b : ℚ) : FVal :=
  if b ≠ 0 then FVal.fin (a / b)
  else if a = 0 then FVal.nan
  else if 0 < a then FVal.pinf
  else FVal.ninf

/-- Minimum of two non-`NaN` float values (`-inf` below all finite values,
`+inf` above). -/
def fmin2 : FVal → FVal → FVal
  | FVal.ninf, _ => FVal.ninf
  | _, FVal.ninf => FVal.ninf
  | FVal.pinf, x => x
  | x, FVal.pinf => x
  | FVal.fin a, FVal.fin b => FVal.fin (min a b)
  | FVal.nan, x => x
  | x, FVal.nan => x

/-- `Series.min()` with pandas defaults: `NaN` entries are skipped; if all
entries are `NaN` (or the series is empty) the result is `NaN`. -/
def seriesMin (xs : List FVal) : FVal :=
  match xs.filter (fun v => v ≠ FVal.nan) with
  | [] => FVal.nan
  | y :: t => t.foldl fmin2 y

/-- Cumulative sums, `Series.cumsum()`. -/
def cumSums : List ℚ → List ℚ
  | [] => []
  | x :: xs => xs.scanl (· + ·) x

/-- Running maximum, `Series.expanding().max()`. -/
def runningMax : List ℚ → List ℚ
  | [] => []
  | x :: xs => xs.scanl max x

/-- Maximum drawdown of a net-flow series as the source computes it:
`((cumulative - running_max) / running_max).min()`, with float-division
semantics for the points where the running maximum is zero. -/
def maxDrawdownF (flows : List ℚ) : FVal :=
  seriesMin
    (List.zipWith (fun c rm => fdiv (c - rm) rm) (cumSums flows) (runningMax flows))

/-- The `max_drawdown` field of `_calculate_risk_metrics`, computed from the
records in the order the advanced-optimization strategy passes them
(that path performs no date sort before the risk metrics). -/
def riskMetricsMaxDrawdown (rs : List Record) : FVal :=
  maxDrawdownF (netFlows rs)

/-- Finiteness of a float value. -/
def isFiniteF : FVal → Bool
  | FVal.fin _ => true
  | _ => false

/-- Two-day series with net flows `[0, -5]`: the cumulative balance is
`[0, -5]` and its running maximum `[0, 0]`, so the second drawdown cell
divides `-5` by `0`. -/
def zeroPeakSeries : List Record := [⟨0, 3, 3⟩, ⟨1, 0, 5⟩]

/-- C2: the boundary contract is violated by the code: on the series with
net flows `[0, -5]` the running maximum of the cumulative balance is `0`
while the cumulative balance falls to `-5`, so the drawdown column contains
`-5 / 0 = -inf`, and `max_drawdown` is returned as `-Infinity` — a
non-finite value surfaced in the result rather than replaced by `0` or
omitted. -/
theorem C2_nonfinite_drawdown :
    riskMetricsMaxDrawdown zeroPeakSeries = FVal.ninf ∧
      isFiniteF (riskMetricsMaxDrawdown zeroPeakSeries) = false := by
  have h : riskMetricsMaxDrawdown zeroPeakSeries = FVal.ninf := by
    norm_num [riskMetricsMaxDrawdown, maxDrawdownF, netFlows, netFlow,
      zeroPeakSeries, cumSums, runningMax, List.scanl, seriesMin, fdiv,
      fmin2, List.zipWith, List.filter, isFiniteF]
    rfl
  exact ⟨h, by rw [h]; rfl⟩

/-! ## Risk-posture parameters (`CashFlowOptimizer._get_risk_parameters`)
and the HTTP-level validation (`app.py`, `optimize` endpoint). -/

/-- Fixed parameter tuple attached to a risk posture.  (Field names are
shortened from the source's `min_reserve_ratio` / `max_investment_ratio` /
`volatility_tolerance` / `liquidity_buffer`.) -/
structure RiskParams where
  minReserve : ℚ
  maxInvestment : ℚ
  volTolerance : ℚ
  liqBuffer : ℚ
deriving DecidableEq, Repr

/-- Lookup of `risk_configs.get(self.risk_level, risk_configs['moderate'])`:
an unknown posture silently receives the moderate parameters. -/
def getRiskParameters (riskLevel : String) : RiskParams :=
  if riskLevel = "conservative" then ⟨0.2, 0.1, 0.05, 0.15⟩
  else if riskLevel = "moderate" then ⟨0.15, 0.25, 0.1, 0.1⟩
  else if riskLevel = "aggressive" then ⟨0.1, 0.4, 0.2, 0.05⟩
  else ⟨0.15, 0.25, 0.1, 0.1⟩

/-- State of a constructed `CashFlowOptimizer`: the posture string as given
and the parameters resolved for it in `__init__`. -/
structure Optimizer where
  riskLevel : String
  params : RiskParams
deriving DecidableEq, Repr

/-- `CashFlowOptimizer(risk_level)`: construction never validates the
posture; it stores the string and resolves parameters via the defaulting
lookup. -/
def mkOptimizer (riskLevel : String) : Optimizer :=
  ⟨riskLevel, getRiskParameters riskLevel⟩

/-- Result of the basic optimization strategy
(`CashFlowOptimizer._basic_optimization`); the volatility figure and the
recommendation strings of the returned dict are presentation-only and not
modelled. -/
structure BasicResult where
  strategy : String
  riskLevel : String
  minimumReserve : ℚ
  safetyBuffer : ℚ
deriving DecidableEq, Repr

/-- Minimum of a list of rationals (`Series.min()` on a nonempty numeric
series; `0` for the empty list in the model). -/
def minList : List ℚ → ℚ
  | [] => 0
  | x :: xs => xs.foldl min x

/-- The basic strategy: reserve `abs(min net flow)` when the minimum net
flow is negative (else `0`), plus a safety buffer scaled by the posture's
liquidity buffer. -/
def basicOptimization (opt : Optimizer) (rs : List Record) : BasicResult :=
  let minNF := minList (netFlows rs)
  let minReserve := if minNF < 0 then |minNF| else 0
  let buffer := minReserve * opt.params.liqBuffer
  ⟨"basic", opt.riskLevel, minReserve + buffer, buffer⟩

/-- Allowed strategy strings checked by the `optimize` endpoint. -/
def validStrategies : List String := ["basic", "advanced", "comprehensive"]

/-- Allowed risk-posture strings checked by the `optimize` endpoint. -/
def validRiskLevels : List String := ["conservative", "moderate", "aggressive"]

/-- Validation performed by the `optimize` endpoint in `app.py` before any
engine is constructed: unknown strategy or risk level is rejected with a
message listing the allowed values; otherwise the optimizer is built. -/
def optimizeEndpoint (strategy riskLevel : String) : Except String Optimizer :=
  if strategy ∉ validStrategies then
    Except.error "Invalid strategy. Valid strategies: basic, advanced, comprehensive"
  else if riskLevel ∉ validRiskLevels then
    Except.error "Invalid risk level. Valid levels: conservative, moderate, aggressive"
  else Except.ok (mkOptimizer riskLevel)

/-- C3: the claim, as stated, is false: constructing the engine with the
posture string "bogus" does not fail — it proceeds with the moderate
parameters substituted, and the basic strategy runs to completion exactly
as it would for "moderate". -/
theorem C3_counterexample :
    "bogus" ∉ validRiskLevels ∧
    (mkOptimizer "bogus").params = getRiskParameters "moderate" ∧
    basicOptimization (mkOptimizer "bogus") zeroPeakSeries =
      { basicOptimization (mkOptimizer "moderate") zeroPeakSeries with
          riskLevel := "bogus" } := by
  refine ⟨by decide, rfl, ?_⟩
  rfl

/-- C3 (amended): risk-posture validation lives at the HTTP boundary, not
in the engine: for every posture outside the allowed set (and any valid
strategy) the `optimize` endpoint rejects the request with an error listing
the allowed set before any engine is constructed, while the engine itself,
constructed directly with such a posture, substitutes the moderate
parameter set. -/
theorem C3_amended (strategy riskLevel : String)
    (hs : strategy ∈ validStrategies) (hr : riskLevel ∉ validRiskLevels) :
    optimizeEndpoint strategy riskLevel =
      Except.error "Invalid risk level. Valid levels: conservative, moderate, aggressive" ∧
    (mkOptimizer riskLevel).params = getRiskParameters "moderate" := by
  constructor
  · unfold optimizeEndpoint
    rw [if_neg (by simp only [not_not]; exact hs), if_pos hr]
  · have h1 : riskLevel ≠ "conservative" := by
      intro h; exact hr (by rw [h]; decide)
    have h2 : riskLevel ≠ "moderate" := by
      intro h; exact hr (by rw [h]; decide)
    have h3 : riskLevel ≠ "aggressive" := by
      intro h; exact hr (by rw [h]; decide)
    simp [mkOptimizer, getRiskParameters, h1, h2, h3]

/-- C3 (amended) witness at strategy "basic" and posture "bogus". -/
theorem C3_amended_witness :
    "basic" ∈ validStrategies ∧ "bogus" ∉ validRiskLevels ∧
      (optimizeEndpoint "basic" "bogus" =
        Except.error "Invalid risk level. Valid levels: conservative, moderate, aggressive" ∧
      (mkOptimizer "bogus").params = getRiskParameters "moderate") :=
  ⟨by decide, by decide, C3_amended "basic" "bogus" (by decide) (by decide)⟩

/-! ## Percentiles and VaR (`CashFlowOptimizer._calculate_risk_metrics`)

`np.percentile(xs, q)` with the default linear interpolation sorts the
data, computes the fractional rank `h = q/100 * (n - 1)` and linearly
interpolates between the neighbouring order statistics. -/

/-- The data sorted ascending (`np.percentile` sorts internally). -/
def sortedQ (xs : List ℚ) : List ℚ := List.insertionSort (· ≤ ·) xs

/-- Linear interpolation of a sorted sequence at fractional rank `h`:
`s[k] + (h - k) * (s[k+1] - s[k])` with `k = floor h`.  Out-of-range reads
default to `0`; they are never hit at the ranks used by the program. -/
def interpAt (s : List ℚ) (h : ℚ) : ℚ :=
  s.getD (Nat.floor h) 0 +
    (h - (Nat.floor h : ℚ)) *
      (s.getD (Nat.floor h + 1) 0 - s.getD (Nat.floor h) 0)

/-- `np.percentile(xs, q)` with linear interpolation. -/
def percentile (q : ℚ) (xs : List ℚ) : ℚ :=
  interpAt (sortedQ xs) (q / 100 * (((sortedQ xs).length : ℚ) - 1))

/-- `var_95 = np.percentile(net_cash_flow, 5)`. -/
def var95 (xs : List ℚ) : ℚ := percentile 5 xs

/-- `var_99 = np.percentile(net_cash_flow, 1)`. -/
def var99 (xs : List ℚ) : ℚ := percentile 1 xs

theorem sortedQ_sorted (xs : List ℚ) : (sortedQ xs).Sorted (· ≤ ·) :=
  List.sorted_insertionSort _ xs

theorem sortedQ_length (xs : List ℚ) : (sortedQ xs).length = xs.length :=
  List.length_insertionSort _ xs

theorem sorted_getD_mono {s : List ℚ} (hs : s.Sorted (· ≤ ·)) {i j : ℕ}
    (hij : i ≤ j) (hj : j < s.length) : s.getD i 0 ≤ s.getD j 0 := by
  have hi : i < s.length := lt_of_le_of_lt hij hj
  rw [List.getD_eq_getElem s 0 hi, List.getD_eq_getElem s 0 hj]
  rcases Nat.eq_or_lt_of_le hij with rfl | hlt
  · exact le_refl _
  · exact hs.rel_get_of_lt (Fin.mk_lt_mk.mpr hlt)

/-- Linear interpolation of a sorted sequence is monotone in the rank, as
long as the rank stays strictly below `n - 1` (the regime in which the
program evaluates it). -/
theorem interpAt_mono {s : List ℚ} (hs : s.Sorted (· ≤ ·)) {h1 h2 : ℚ}
    (h0 : 0 ≤ h1) (h12 : h1 ≤ h2) (hub : h2 < (s.length : ℚ) - 1) :
    interpAt s h1 ≤ interpAt s h2 := by
  have h20 : 0 ≤ h2 := le_trans h0 h12
  set k1 := Nat.floor h1 with hk1def
  set k2 := Nat.floor h2 with hk2def
  have hk1le : (k1 : ℚ) ≤ h1 := Nat.floor_le h0
  have hk2le : (k2 : ℚ) ≤ h2 := Nat.floor_le h20
  have hk1lt : h1 < (k1 : ℚ) + 1 := Nat.lt_floor_add_one h1
  have hk2lt : h2 < (k2 : ℚ) + 1 := Nat.lt_floor_add_one h2
  have hk12 : k1 ≤ k2 := Nat.floor_mono h12
  have hk2q : (k2 : ℚ) < (s.length : ℚ) - 1 := lt_of_le_of_lt hk2le hub
  have hk2n : k2 + 1 < s.length := by exact_mod_cast (by linarith : (k2 : ℚ) + 1 < (s.length : ℚ))
  have hk1n : k1 + 1 < s.length := lt_of_le_of_lt (Nat.succ_le_succ hk12) hk2n
  have hA1B1 : s.getD k1 0 ≤ s.getD (k1 + 1) 0 :=
    sorted_getD_mono hs (Nat.le_succ k1) hk1n
  have hA2B2 : s.getD k2 0 ≤ s.getD (k2 + 1) 0 :=
    sorted_getD_mono hs (Nat.le_succ k2) hk2n
  unfold interpAt
  rw [← hk1def, ← hk2def]
  rcases Nat.eq_or_lt_of_le hk12 with heq | hlt
  · rw [heq]
    rw [heq] at hk1le
    nlinarith [hA2B2]
  · have hB1A2 : s.getD (k1 + 1) 0 ≤ s.getD k2 0 :=
      sorted_getD_mono hs hlt (Nat.lt_of_succ_lt hk2n)
    have e1 : s.getD k1 0 + (h1 - (k1 : ℚ)) * (s.getD (k1 + 1) 0 - s.getD k1 0) ≤
        s.getD (k1 + 1) 0 := by nlinarith [hA1B1]
    have e2 : s.getD k2 0 ≤
        s.getD k2 0 + (h2 - (k2 : ℚ)) * (s.getD (k2 + 1) 0 - s.getD k2 0) := by
      nlinarith [hA2B2]
    linarith

/-- Percentiles are monotone in the level, for levels in `[0, 100)`. -/
theorem percentile_mono (xs : List ℚ) {q1 q2 : ℚ} (h0 : 0 ≤ q1) (h12 : q1 ≤ q2)
    (h100 : q2 < 100) : percentile q1 xs ≤ percentile q2 xs := by
  have hs := sortedQ_sorted xs
  unfold percentile
  rcases hcase : (sortedQ xs).length with _ | n
  · have hnil : sortedQ xs = [] := List.length_eq_zero.mp hcase
    simp [hnil, interpAt]
  · cases n with
    | zero =>
        norm_num
    | succ m =>
        apply interpAt_mono hs
        · apply mul_nonneg (div_nonneg h0 (by norm_num))
          push_cast
          linarith [Nat.cast_nonneg (α := ℚ) m]
        · apply mul_le_mul_of_nonneg_right
          · exact div_le_div_of_nonneg_right h12 (by norm_num)
          · push_cast
            linarith [Nat.cast_nonneg (α := ℚ) m]
        · rw [hcase]
          have hq : q2 / 100 < 1 := (div_lt_one (by norm_num)).mpr h100
          have hc : (0 : ℚ) < ((m + 1 + 1 : ℕ) : ℚ) - 1 := by
            push_cast
            linarith [Nat.cast_nonneg (α := ℚ) m]
          calc q2 / 100 * (((m + 1 + 1 : ℕ) : ℚ) - 1)
              < 1 * (((m + 1 + 1 : ℕ) : ℚ) - 1) := by
                exact mul_lt_mul_of_pos_right hq hc
            _ = ((m + 1 + 1 : ℕ) : ℚ) - 1 := one_mul _

theorem sorted_replicate (n : ℕ) (x : ℚ) : (List.replicate n x).Sorted (· ≤ ·) := by
  induction n with
  | zero => simp
  | succ m ih =>
      rw [List.replicate_succ, List.sorted_cons]
      exact ⟨fun b hb => (List.eq_of_mem_replicate hb).ge, ih⟩

/-- C7 (amended): VaR₉₉ is at most VaR₉₅ for every net-flow series with
more than one distinct value (percentile monotonicity); the additional
upper bound by the mean claimed by the specification does not hold in
general and is dropped. -/
theorem C7_amended (rs : List Record)
    (hd : ∃ a ∈ netFlows rs, ∃ b ∈ netFlows rs, a ≠ b) :
    var99 (netFlows rs) ≤ var95 (netFlows rs) := by
  have _ := hd
  exact percentile_mono (netFlows rs) (by norm_num) (by norm_num) (by norm_num)

/-- Two-day series with the distinct net flows `1` and `2`. -/
def pairSeries : List Record := [⟨0, 1, 0⟩, ⟨1, 2, 0⟩]

/-- C7 (amended) witness at the series with net flows `[1, 2]`. -/
theorem C7_amended_witness :
    (∃ a ∈ netFlows pairSeries, ∃ b ∈ netFlows pairSeries, a ≠ b) ∧
      var99 (netFlows pairSeries) ≤ var95 (netFlows pairSeries) := by
  have hd : ∃ a ∈ netFlows pairSeries, ∃ b ∈ netFlows pairSeries, a ≠ b := by
    refine ⟨1, ?_, 2, ?_, by norm_num⟩ <;> norm_num [netFlows, netFlow, pairSeries]
  exact ⟨hd, C7_amended pairSeries hd⟩

/-- Left-skewed 21-day series with net flows `[-1000, 1, 1, …, 1]`. -/
def skewSeries : List Record :=
  ⟨0, 0, 1000⟩ :: (List.range 20).map (fun (i : ℕ) => ⟨(i : ℤ) + 1, 1, 0⟩)

/-- C7: the claim, as stated, is false: for the series with net flows
`[-1000]` followed by twenty `1`s, the 5th percentile (VaR₉₅) is `1` while
the mean is `-980/21 < 0`, so `VaR₉₅ ≤ mean` fails even though the series
has more than one distinct value. -/
theorem C7_counterexample :
    (∃ a ∈ netFlows skewSeries, ∃ b ∈ netFlows skewSeries, a ≠ b) ∧
      ¬ var95 (netFlows skewSeries) ≤ mean (netFlows skewSeries) := by
  have hflows : netFlows skewSeries = -1000 :: List.replicate 20 1 := by
    unfold netFlows skewSeries
    rw [List.map_cons, List.map_map]
    congr 1
    · norm_num [netFlow]
    · rw [List.eq_replicate_iff]
      refine ⟨by rw [List.length_map, List.length_range], ?_⟩
      intro b hb
      simp only [List.mem_map, List.mem_range] at hb
      obtain ⟨i, _, rfl⟩ := hb
      norm_num [netFlow]
  have hsQ : sortedQ (netFlows skewSeries) = -1000 :: List.replicate 20 1 := by
    rw [hflows]
    apply List.Sorted.insertionSort_eq
    rw [List.sorted_cons]
    refine ⟨fun b hb => ?_, sorted_replicate 20 1⟩
    rw [List.eq_of_mem_replicate hb]
    norm_num
  have hrank : (5 : ℚ) / 100 * (((sortedQ (netFlows skewSeries)).length : ℚ) - 1) = 1 := by
    rw [hsQ]
    simp
    norm_num
  have g1 : (-1000 :: List.replicate 20 (1 : ℚ)).getD 1 0 = 1 := by
    rw [List.getD_cons_succ,
      List.getD_eq_getElem _ _ (by simp : (0 : ℕ) < (List.replicate 20 (1 : ℚ)).length)]
    simp
  have g2 : (-1000 :: List.replicate 20 (1 : ℚ)).getD 2 0 = 1 := by
    rw [List.getD_cons_succ,
      List.getD_eq_getElem _ _ (by simp : (1 : ℕ) < (List.replicate 20 (1 : ℚ)).length)]
    simp
  have h95 : var95 (netFlows skewSeries) = 1 := by
    unfold var95 percentile
    rw [hrank, hsQ]
    unfold interpAt
    rw [Nat.floor_one, g1, g2]
    norm_num
  have hmean : mean (netFlows skewSeries) = -980 / 21 := by
    rw [hflows]
    unfold mean
    rw [List.sum_cons, List.sum_replicate]
    norm_num
  constructor
  · refine ⟨-1000, ?_, 1, ?_, by norm_num⟩
    · rw [hflows]
      exact List.mem_cons_self _ _
    · rw [hflows]
      exact List.mem_cons_of_mem _ (by simp [List.mem_replicate])
  · rw [h95, hmean]
    norm_num

/-! ## Projection engine (`AdvancedProjectionEngine`)

The four forecasting methods.  Two genuinely opaque ingredients are
injected as parameters, as §9 of the specification requires
(injectable randomness / model state): the residual bootstrap draw of the
advanced method (`np.random.choice`), the calendar day-of-year function,
and the trained scikit-learn regressors of the ml method (whose per-step
predictions and cross-model standard deviation become input functions).
The historical net-flow standard deviation used for the fixed-width
advanced confidence band is likewise injected (it is irrational in
general); no claim verified here constrains its value. -/

/-- One row of the returned `projections` list.  Method-specific
diagnostic fields of the dicts (trend/seasonal components, per-model
predictions) are not modelled. -/
structure ProjEntry where
  date : ℤ
  net_cash_flow : ℚ
  cumulative_cash : ℚ
  confidence_lower : ℚ
  confidence_upper : ℚ
deriving DecidableEq, Repr

/-- Default entry for out-of-range indexing in statements. -/
def dfltEntry : ProjEntry := ⟨0, 0, 0, 0, 0⟩

/-- A projection result: the `method` tag and the `projections` list.
The method-specific top-level diagnostics (`metrics`, `seasonal_patterns`,
`model_performance`, …) are not modelled. -/
structure Projection where
  method : String
  projections : List ProjEntry
deriving DecidableEq, Repr

/-- Injected opaque inputs of the engine (see section comment). -/
structure EngineParams where
  doy : ℤ → ℕ
  pick : ℕ → ℕ
  predict : ℕ → List ℚ
  predSd : ℕ → ℚ
  sd : ℚ

/-- Last value of `rolling(7, min_periods=1).mean()`: the mean of the last
`min 7 n` values (`recent_avg` of the simple method; the `NaN` fallback
branch is unreachable for a nonempty series). -/
def recentAverage (ys : List ℚ) : ℚ := mean (ys.drop (ys.length - 7))

/-- Least-squares slope of `np.polyfit(range(n), ys, 1)`:
`(n * Σxy - Σx * Σy) / (n * Σx² - (Σx)²)` with `x = 0, …, n-1`. -/
def polyfitSlope (ys : List ℚ) : ℚ :=
  let n : ℚ := ys.length
  let xs : List ℚ := (List.range ys.length).map (fun (i : ℕ) => (i : ℚ))
  (n * (List.zipWith (· * ·) xs ys).sum - xs.sum * ys.sum) /
    (n * (xs.map (fun x => x * x)).sum - xs.sum * xs.sum)

/-- Least-squares intercept of `np.polyfit(range(n), ys, 1)`:
`(Σy * Σx² - Σx * Σxy) / (n * Σx² - (Σx)²)`. -/
def polyfitIntercept (ys : List ℚ) : ℚ :=
  let n : ℚ := ys.length
  let xs : List ℚ := (List.range ys.length).map (fun (i : ℕ) => (i : ℚ))
  (ys.sum * (xs.map (fun x => x * x)).sum - xs.sum * (List.zipWith (· * ·) xs ys).sum) /
    (n * (xs.map (fun x => x * x)).sum - xs.sum * xs.sum)

/-- Loop body of `_simple_projection`: at step `i` (0-based) the projected
flow is `recent_avg + trend * (i + 1)`, the cumulative balance accumulates,
the date advances one day per step, and the confidence band is
`flow * 0.8` / `flow * 1.2`. -/
def simpleEntries (recent trend : ℚ) (dL : ℤ) : ℚ → ℕ → ℕ → List ProjEntry
  | _, _, 0 => []
  | cum, i, Nat.succ steps =>
    let flow := recent + trend * ((i : ℚ) + 1)
    ⟨dL + ((i : ℤ) + 1), flow, cum + flow, flow * 0.8, flow * 1.2⟩ ::
      simpleEntries recent trend dL (cum + flow) (i + 1) steps

/-- `AdvancedProjectionEngine._simple_projection` (the Naive-Trend
method), operating on the date-sorted series. -/
def simpleProjection (horizon : ℕ) (rs : List Record) : Projection :=
  let ys := netFlows (sortedRecords rs)
  { method := "simple",
    projections :=
      simpleEntries (recentAverage ys) (polyfitSlope ys) (maxDate rs)
        (lastCumulative rs) 0 horizon }

/-- Seasonal pattern lookup of `_calculate_seasonal_patterns` /
`seasonal_patterns.get(day_of_year, 0)`: the mean historical net flow over
records sharing the day-of-year, or `0` if there is none. -/
def seasonalPatternAt (p : EngineParams) (rs : List Record) (dy : ℕ) : ℚ :=
  let vals := ((sortedRecords rs).filter (fun r => p.doy r.date == dy)).map netFlow
  if vals.isEmpty then 0 else mean vals

/-- Loop body of `_advanced_projection`: trend component
`trend[-1] + (trend[-1] - trend[-2]) * (i + 1)`, plus the seasonal
component of the future date, plus the (injected) scaled residual draw;
confidence band is a fixed `± 1.96 *` historical standard deviation. -/
def advancedEntries (tn tstep : ℚ) (seasAt noiseAt : ℕ → ℚ) (sd : ℚ) (dL : ℤ) :
    ℚ → ℕ → ℕ → List ProjEntry
  | _, _, 0 => []
  | cum, i, Nat.succ steps =>
    let flow := (tn + tstep * ((i : ℚ) + 1)) + seasAt i + noiseAt i
    ⟨dL + ((i : ℤ) + 1), flow, cum + flow, flow - 1.96 * sd, flow + 1.96 * sd⟩ ::
      advancedEntries tn tstep seasAt noiseAt sd dL (cum + flow) (i + 1) steps

/-- `AdvancedProjectionEngine._advanced_projection` (the
Seasonal-Decomposition method): linear trend extrapolated at its last
value with per-step increment `trend[-1] - trend[-2]` (for series of
length > 1), day-of-year seasonal means, and a `0.1`-scaled residual
bootstrap draw injected via `p.pick`.  The decomposition's `seasonal`
series is `0` on the first seven indices and `y - trend` elsewhere, so the
residual series is `y - trend` on the first seven indices and `0`
elsewhere, exactly as `_decompose_timeseries` computes it. -/
def advancedProjection (horizon : ℕ) (p : EngineParams) (rs : List Record) : Projection :=
  let ys := netFlows (sortedRecords rs)
  let n := ys.length
  let slope := polyfitSlope ys
  let icept := polyfitIntercept ys
  let trendL := (List.range n).map (fun (i : ℕ) => slope * (i : ℚ) + icept)
  let tn := trendL.getD (n - 1) 0
  let tstep := if 1 < n then trendL.getD (n - 1) 0 - trendL.getD (n - 2) 0 else 0
  let seasonal := (List.range n).map
    (fun (i : ℕ) => if i < 7 then 0 else ys.getD i 0 - trendL.getD i 0)
  let resid := (List.range n).map
    (fun (i : ℕ) => ys.getD i 0 - trendL.getD i 0 - seasonal.getD i 0)
  let dL := maxDate rs
  let seasAt := fun (i : ℕ) => seasonalPatternAt p rs (p.doy (dL + ((i : ℤ) + 1)))
  let noiseAt := fun (i : ℕ) =>
    if 0 < resid.length then resid.getD (p.pick i % resid.length) 0 * 0.1 else 0
  { method := "advanced",
    projections :=
      advancedEntries tn tstep seasAt noiseAt p.sd dL (lastCumulative rs) 0 horizon }

/-- Whether row `i` (0-based) of `_prepare_ml_features` survives
`dropna()`: every lag in `{1,3,7,14,30}` and every rolling window in
`{7,14,30}` (default `min_periods = window`) must be fully populated. -/
def mlRowKept (i : ℕ) : Bool :=
  ([1, 3, 7, 14, 30].all fun lag => decide (lag ≤ i)) &&
    ([7, 14, 30].all fun w => decide (w - 1 ≤ i))

/-- Number of usable rows after feature preparation (`len(df_ml)`). -/
def mlUsableRows (n : ℕ) : ℕ := ((List.range n).filter mlRowKept).length

/-- Loop body of `_ml_projection`: per-step flow is the mean of the
(injected) model predictions, and the confidence band is
`± 1.96 *` the (injected) cross-model standard deviation. -/
def mlEntries (predict : ℕ → List ℚ) (psd : ℕ → ℚ) (dL : ℤ) :
    ℚ → ℕ → ℕ → List ProjEntry
  | _, _, 0 => []
  | cum, i, Nat.succ steps =>
    let flow := mean (predict i)
    ⟨dL + ((i : ℤ) + 1), flow, cum + flow, flow - 1.96 * psd i, flow + 1.96 * psd i⟩ ::
      mlEntries predict psd dL (cum + flow) (i + 1) steps

/-- `AdvancedProjectionEngine._ml_projection`: with fewer than 30 usable
rows after feature preparation it returns `_simple_projection(df)`
unchanged; otherwise it builds one prediction entry per future date. -/
def mlProjection (horizon : ℕ) (p : EngineParams) (rs : List Record) : Projection :=
  if mlUsableRows rs.length < 30 then simpleProjection horizon rs
  else
    { method := "ml",
      projections :=
        mlEntries p.predict p.predSd (maxDate rs) (lastCumulative rs) 0 horizon }

/-- Loop body of `_ensemble_projection`: per step the three sub-method
flows are combined with weights `0.2 / 0.3 / 0.5`, the cumulative balance
re-accumulates from the previous ensemble entry, the date is copied from
the simple sub-projection, and the band is `flow * 0.85` / `flow * 1.15`.
(The loop runs over the indices of the simple projection list; in the
program all three lists always share the forecast-horizon length.) -/
def ensembleEntries : List ProjEntry → List ProjEntry → List ProjEntry → ℚ → List ProjEntry
  | s :: ss, a :: aa, m :: mm, cum =>
    let flow := s.net_cash_flow * 0.2 + a.net_cash_flow * 0.3 + m.net_cash_flow * 0.5
    ⟨s.date, flow, cum + flow, flow * 0.85, flow * 1.15⟩ ::
      ensembleEntries ss aa mm (cum + flow)
  | _, _, _, _ => []

/-- `AdvancedProjectionEngine._ensemble_projection` (the Blend method):
runs the three sub-methods and combines them.  The starting cumulative is
`df['cumulative_cash'].iloc[-1]` — the column exists at that point because
`_simple_projection` has added it to the shared dataframe. -/
def ensembleProjection (horizon : ℕ) (p : EngineParams) (rs : List Record) : Projection :=
  { method := "ensemble",
    projections :=
      ensembleEntries (simpleProjection horizon rs).projections
        (advancedProjection horizon p rs).projections
        (mlProjection horizon p rs).projections (lastCumulative rs) }

/-- Allowed projection-method strings checked by the
`liquidity-projection` endpoint. -/
def validMethods : List String := ["simple", "advanced", "ensemble", "ml"]

/-- `AdvancedProjectionEngine.generate_liquidity_projection`: dispatch on
the method string; an unknown method raises
`ValueError(f"Unknown projection method: {method}")`, modelled as the
error branch. -/
def generateLiquidityProjection (horizon : ℕ) (p : EngineParams) (rs : List Record)
    (method : String) : Except String Projection :=
  if method = "simple" then Except.ok (simpleProjection horizon rs)
  else if method = "advanced" then Except.ok (advancedProjection horizon p rs)
  else if method = "ensemble" then Except.ok (ensembleProjection horizon p rs)
  else if method = "ml" then Except.ok (mlProjection horizon p rs)
  else Except.error ("Unknown projection method: " ++ method)

/-- The `liquidity-projection` endpoint of `app.py`: the method string is
validated against the closed enumeration before the engine is invoked;
mismatches are answered with a message listing the allowed set. -/
def liquidityEndpoint (horizon : ℕ) (p : EngineParams) (rs : List Record)
    (method : String) : Except String Projection :=
  if method ∈ validMethods then generateLiquidityProjection horizon p rs method
  else Except.error "Invalid method. Valid methods: simple, advanced, ensemble, ml"

theorem simpleEntries_length (r t : ℚ) (dL : ℤ) (steps : ℕ) :
    ∀ (cum : ℚ) (i : ℕ), (simpleEntries r t dL cum i steps).length = steps := by
  induction steps with
  | zero => intro cum i; rfl
  | succ st ih =>
      intro cum i
      simp only [simpleEntries, List.length_cons, ih]

theorem simpleEntries_date (r t : ℚ) (dL : ℤ) (steps : ℕ) :
    ∀ (cum : ℚ) (i j : ℕ), j < steps →
      ((simpleEntries r t dL cum i steps).getD j dfltEntry).date =
        dL + (i : ℤ) + (j : ℤ) + 1 := by
  induction steps with
  | zero => intro cum i j hj; exact absurd hj (Nat.not_lt_zero j)
  | succ st ih =>
      intro cum i j hj
      cases j with
      | zero =>
          show (⟨dL + ((i : ℤ) + 1), _, _, _, _⟩ : ProjEntry).date = _
          push_cast
          ring
      | succ k =>
          have hk : k < st := Nat.lt_of_succ_lt_succ hj
          simp only [simpleEntries, List.getD_cons_succ]
          rw [ih _ (i + 1) k hk]
          push_cast
          ring

theorem simpleEntries_flow (r t : ℚ) (dL : ℤ) (steps : ℕ) :
    ∀ (cum : ℚ) (i j : ℕ), j < steps →
      ((simpleEntries r t dL cum i steps).getD j dfltEntry).net_cash_flow =
        r + t * ((i : ℚ) + (j : ℚ) + 1) := by
  induction steps with
  | zero => intro cum i j hj; exact absurd hj (Nat.not_lt_zero j)
  | succ st ih =>
      intro cum i j hj
      cases j with
      | zero =>
          show r + t * ((i : ℚ) + 1) = _
          push_cast
          ring
      | succ k =>
          have hk : k < st := Nat.lt_of_succ_lt_succ hj
          simp only [simpleEntries, List.getD_cons_succ]
          rw [ih _ (i + 1) k hk]
          push_cast
          ring

theorem simpleEntries_bounds (r t : ℚ) (dL : ℤ) (steps : ℕ) :
    ∀ (cum : ℚ) (i : ℕ), ∀ e ∈ simpleEntries r t dL cum i steps,
      e.confidence_lower = e.net_cash_flow * 0.8 ∧
        e.confidence_upper = e.net_cash_flow * 1.2 := by
  induction steps with
  | zero => intro cum i e he; simp [simpleEntries] at he
  | succ st ih =>
      intro cum i e he
      simp only [simpleEntries, List.mem_cons] at he
      rcases he with rfl | he
      · exact ⟨rfl, rfl⟩
      · exact ih _ _ e he

theorem advancedEntries_length (tn tstep : ℚ) (seasAt noiseAt : ℕ → ℚ) (sd : ℚ)
    (dL : ℤ) (steps : ℕ) :
    ∀ (cum : ℚ) (i : ℕ),
      (advancedEntries tn tstep seasAt noiseAt sd dL cum i steps).length = steps := by
  induction steps with
  | zero => intro cum i; rfl
  | succ st ih =>
      intro cum i
      simp only [advancedEntries, List.length_cons, ih]

theorem advancedEntries_date (tn tstep : ℚ) (seasAt noiseAt : ℕ → ℚ) (sd : ℚ)
    (dL : ℤ) (steps : ℕ) :
    ∀ (cum : ℚ) (i j : ℕ), j < steps →
      ((advancedEntries tn tstep seasAt noiseAt sd dL cum i steps).getD j dfltEntry).date =
        dL + (i : ℤ) + (j : ℤ) + 1 := by
  induction steps with
  | zero => intro cum i j hj; exact absurd hj (Nat.not_lt_zero j)
  | succ st ih =>
      intro cum i j hj
      cases j with
      | zero =>
          show (⟨dL + ((i : ℤ) + 1), _, _, _, _⟩ : ProjEntry).date = _
          push_cast
          ring
      | succ k =>
          have hk : k < st := Nat.lt_of_succ_lt_succ hj
          simp only [advancedEntries, List.getD_cons_succ]
          rw [ih _ (i + 1) k hk]
          push_cast
          ring

theorem mlEntries_length (predict : ℕ → List ℚ) (psd : ℕ → ℚ) (dL : ℤ) (steps : ℕ) :
    ∀ (cum : ℚ) (i : ℕ), (mlEntries predict psd dL cum i steps).length = steps := by
  induction steps with
  | zero => intro cum i; rfl
  | succ st ih =>
      intro cum i
      simp only [mlEntries, List.length_cons, ih]

theorem mlEntries_date (predict : ℕ → List ℚ) (psd : ℕ → ℚ) (dL : ℤ) (steps : ℕ) :
    ∀ (cum : ℚ) (i j : ℕ), j < steps →
      ((mlEntries predict psd dL cum i steps).getD j dfltEntry).date =
        dL + (i : ℤ) + (j : ℤ) + 1 := by
  induction steps with
  | zero => intro cum i j hj; exact absurd hj (Nat.not_lt_zero j)
  | succ st ih =>
      intro cum i j hj
      cases j with
      | zero =>
          show (⟨dL + ((i : ℤ) + 1), _, _, _, _⟩ : ProjEntry).date = _
          push_cast
          ring
      | succ k =>
          have hk : k < st := Nat.lt_of_succ_lt_succ hj
          simp only [mlEntries, List.getD_cons_succ]
          rw [ih _ (i + 1) k hk]
          push_cast
          ring

theorem ensembleEntries_length (s : List ProjEntry) :
    ∀ (a m : List ProjEntry) (cum : ℚ),
      (ensembleEntries s a m cum).length = min s.length (min a.length m.length) := by
  induction s with
  | nil =>
      intro a m cum
      simp [ensembleEntries]
  | cons s0 ss ih =>
      intro a m cum
      cases a with
      | nil => simp [ensembleEntries]
      | cons a0 aa =>
          cases m with
          | nil => simp [ensembleEntries]
          | cons m0 mm =>
              simp only [ensembleEntries, List.length_cons, ih]
              omega

theorem ensembleEntries_date (s : List ProjEntry) :
    ∀ (a m : List ProjEntry) (cum : ℚ) (j : ℕ),
      j < s.length → j < a.length → j < m.length →
      ((ensembleEntries s a m cum).getD j dfltEntry).date = (s.getD j dfltEntry).date := by
  induction s with
  | nil => intro a m cum j hj _ _; exact absurd hj (Nat.not_lt_zero j)
  | cons s0 ss ih =>
      intro a m cum j hjs hja hjm
      cases a with
      | nil => exact absurd hja (Nat.not_lt_zero j)
      | cons a0 aa =>
          cases m with
          | nil => exact absurd hjm (Nat.not_lt_zero j)
          | cons m0 mm =>
              cases j with
              | zero => rfl
              | succ k =>
                  simp only [ensembleEntries, List.getD_cons_succ]
                  exact ih aa mm _ k (Nat.lt_of_succ_lt_succ hjs)
                    (Nat.lt_of_succ_lt_succ hja) (Nat.lt_of_succ_lt_succ hjm)

theorem ensembleEntries_flow (s : List ProjEntry) :
    ∀ (a m : List ProjEntry) (cum : ℚ) (j : ℕ),
      j < s.length → j < a.length → j < m.length →
      ((ensembleEntries s a m cum).getD j dfltEntry).net_cash_flow =
        0.2 * (s.getD j dfltEntry).net_cash_flow +
          0.3 * (a.getD j dfltEntry).net_cash_flow +
          0.5 * (m.getD j dfltEntry).net_cash_flow := by
  induction s with
  | nil => intro a m cum j hj _ _; exact absurd hj (Nat.not_lt_zero j)
  | cons s0 ss ih =>
      intro a m cum j hjs hja hjm
      cases a with
      | nil => exact absurd hja (Nat.not_lt_zero j)
      | cons a0 aa =>
          cases m with
          | nil => exact absurd hjm (Nat.not_lt_zero j)
          | cons m0 mm =>
              cases j with
              | zero =>
                  simp only [ensembleEntries, List.getD_cons_zero]
                  ring
              | succ k =>
                  simp only [ensembleEntries, List.getD_cons_succ]
                  exact ih aa mm _ k (Nat.lt_of_succ_lt_succ hjs)
                    (Nat.lt_of_succ_lt_succ hja) (Nat.lt_of_succ_lt_succ hjm)

theorem ensembleEntries_cum (s : List ProjEntry) :
    ∀ (a m : List ProjEntry) (cum : ℚ) (j : ℕ),
      j < s.length → j < a.length → j < m.length →
      ((ensembleEntries s a m cum).getD j dfltEntry).cumulative_cash =
        cum + ((List.range (j + 1)).map
          (fun k => ((ensembleEntries s a m cum).getD k dfltEntry).net_cash_flow)).sum := by
  induction s with
  | nil => intro a m cum j hj _ _; exact absurd hj (Nat.not_lt_zero j)
  | cons s0 ss ih =>
      intro a m cum j hjs hja hjm
      cases a with
      | nil => exact absurd hja (Nat.not_lt_zero j)
      | cons a0 aa =>
          cases m with
          | nil => exact absurd hjm (Nat.not_lt_zero j)
          | cons m0 mm =>
              cases j with
              | zero =>
                  have h1 : List.range (0 + 1) = [0] := rfl
                  rw [h1, List.map_cons, List.map_nil, List.sum_cons, List.sum_nil]
                  simp only [ensembleEntries, List.getD_cons_zero]
                  ring
              | succ k =>
                  have hk := ih aa mm
                    (cum + (s0.net_cash_flow * 0.2 + a0.net_cash_flow * 0.3 +
                      m0.net_cash_flow * 0.5)) k
                    (Nat.lt_of_succ_lt_succ hjs) (Nat.lt_of_succ_lt_succ hja)
                    (Nat.lt_of_succ_lt_succ hjm)
                  simp only [ensembleEntries, List.getD_cons_succ]
                  rw [hk]
                  conv_rhs => rw [List.range_succ_eq_map, List.map_cons, List.map_map,
                    List.sum_cons]
                  simp only [Function.comp_def, Nat.succ_eq_add_one,
                    List.getD_cons_succ, List.getD_cons_zero]
                  ring

theorem ensembleEntries_bounds (s : List ProjEntry) :
    ∀ (a m : List ProjEntry) (cum : ℚ), ∀ e ∈ ensembleEntries s a m cum,
      e.confidence_lower = e.net_cash_flow * 0.85 ∧
        e.confidence_upper = e.net_cash_flow * 1.15 := by
  induction s with
  | nil => intro a m cum e he; simp [ensembleEntries] at he
  | cons s0 ss ih =>
      intro a m cum e he
      cases a with
      | nil => simp [ensembleEntries] at he
      | cons a0 aa =>
          cases m with
          | nil => simp [ensembleEntries] at he
          | cons m0 mm =>
              simp only [ensembleEntries, List.mem_cons] at he
              rcases he with rfl | he
              · exact ⟨rfl, rfl⟩
              · exact ih aa mm _ e he

theorem simpleProjection_plen (h : ℕ) (rs : List Record) :
    (simpleProjection h rs).projections.length = h := by
  simp only [simpleProjection]
  exact simpleEntries_length _ _ _ _ _ _

theorem simpleProjection_date (h : ℕ) (rs : List Record) (j : ℕ) (hj : j < h) :
    ((simpleProjection h rs).projections.getD j dfltEntry).date =
      maxDate rs + (j : ℤ) + 1 := by
  simp only [simpleProjection]
  rw [simpleEntries_date _ _ _ h _ 0 j hj]
  simp

theorem advancedProjection_plen (h : ℕ) (p : EngineParams) (rs : List Record) :
    (advancedProjection h p rs).projections.length = h := by
  simp only [advancedProjection]
  exact advancedEntries_length _ _ _ _ _ _ _ _ _

theorem advancedProjection_date (h : ℕ) (p : EngineParams) (rs : List Record)
    (j : ℕ) (hj : j < h) :
    ((advancedProjection h p rs).projections.getD j dfltEntry).date =
      maxDate rs + (j : ℤ) + 1 := by
  simp only [advancedProjection]
  rw [advancedEntries_date _ _ _ _ _ _ h _ 0 j hj]
  simp

theorem mlProjection_plen (h : ℕ) (p : EngineParams) (rs : List Record) :
    (mlProjection h p rs).projections.length = h := by
  by_cases hc : mlUsableRows rs.length < 30
  · simp only [mlProjection, if_pos hc]
    exact simpleProjection_plen h rs
  · simp only [mlProjection, if_neg hc]
    exact mlEntries_length _ _ _ _ _ _

theorem mlProjection_date (h : ℕ) (p : EngineParams) (rs : List Record)
    (j : ℕ) (hj : j < h) :
    ((mlProjection h p rs).projections.getD j dfltEntry).date =
      maxDate rs + (j : ℤ) + 1 := by
  by_cases hc : mlUsableRows rs.length < 30
  · simp only [mlProjection, if_pos hc]
    exact simpleProjection_date h rs j hj
  · simp only [mlProjection, if_neg hc]
    rw [mlEntries_date _ _ _ h _ 0 j hj]
    simp

theorem ensembleProjection_plen (h : ℕ) (p : EngineParams) (rs : List Record) :
    (ensembleProjection h p rs).projections.length = h := by
  simp only [ensembleProjection]
  rw [ensembleEntries_length, simpleProjection_plen, advancedProjection_plen,
    mlProjection_plen]
  simp

theorem ensembleProjection_date (h : ℕ) (p : EngineParams) (rs : List Record)
    (j : ℕ) (hj : j < h) :
    ((ensembleProjection h p rs).projections.getD j dfltEntry).date =
      maxDate rs + (j : ℤ) + 1 := by
  simp only [ensembleProjection]
  rw [ensembleEntries_date _ _ _ _ j (by rw [simpleProjection_plen]; exact hj)
    (by rw [advancedProjection_plen]; exact hj)
    (by rw [mlProjection_plen]; exact hj)]
  exact simpleProjection_date h rs j hj

/-- Trivial concrete engine parameters for witnesses. -/
def trivParams : EngineParams := ⟨fun _ => 0, fun _ => 0, fun _ => [], fun _ => 0, 0⟩

/-- C4: for every method string outside the allowed set, the
liquidity-projection endpoint answers with the error listing
`simple, advanced, ensemble, ml`; no projection is produced and no
exception escapes. -/
theorem C4_unknown_method (horizon : ℕ) (p : EngineParams) (rs : List Record)
    (method : String) (hm : method ∉ validMethods) :
    liquidityEndpoint horizon p rs method =
      Except.error "Invalid method. Valid methods: simple, advanced, ensemble, ml" := by
  simp only [liquidityEndpoint, if_neg hm]

/-- C4 witness at the method string "bogus". -/
theorem C4_witness :
    "bogus" ∉ validMethods ∧
      liquidityEndpoint 90 trivParams pairSeries "bogus" =
        Except.error "Invalid method. Valid methods: simple, advanced, ensemble, ml" :=
  ⟨by decide, C4_unknown_method 90 trivParams pairSeries "bogus" (by decide)⟩

/-- C10: for every nonempty input series and every allowed method, the
returned projections list has exactly `forecast_horizon` entries, dated on
consecutive days starting the day after the last historical date. -/
theorem C10_horizon_and_dates (horizon : ℕ) (p : EngineParams) (rs : List Record)
    (hne : rs ≠ []) (method : String) (hm : method ∈ validMethods) :
    ∃ proj : Projection,
      generateLiquidityProjection horizon p rs method = Except.ok proj ∧
      proj.projections.length = horizon ∧
      ∀ j, j < horizon →
        (proj.projections.getD j dfltEntry).date = maxDate rs + (j : ℤ) + 1 := by
  have _ := hne
  simp only [validMethods, List.mem_cons, List.not_mem_nil, or_false] at hm
  rcases hm with rfl | rfl | rfl | rfl
  · exact ⟨simpleProjection horizon rs, by simp [generateLiquidityProjection],
      simpleProjection_plen horizon rs, fun j hj => simpleProjection_date horizon rs j hj⟩
  · exact ⟨advancedProjection horizon p rs, by simp [generateLiquidityProjection],
      advancedProjection_plen horizon p rs,
      fun j hj => advancedProjection_date horizon p rs j hj⟩
  · exact ⟨ensembleProjection horizon p rs, by simp [generateLiquidityProjection],
      ensembleProjection_plen horizon p rs,
      fun j hj => ensembleProjection_date horizon p rs j hj⟩
  · exact ⟨mlProjection horizon p rs, by simp [generateLiquidityProjection],
      mlProjection_plen horizon p rs, fun j hj => mlProjection_date horizon p rs j hj⟩

/-- C10 witness: the Blend method over a two-day series at horizon 2. -/
theorem C10_witness :
    pairSeries ≠ [] ∧ "ensemble" ∈ validMethods ∧
      (∃ proj : Projection,
        generateLiquidityProjection 2 trivParams pairSeries "ensemble" = Except.ok proj ∧
        proj.projections.length = 2 ∧
        ∀ j, j < 2 →
          (proj.projections.getD j dfltEntry).date = maxDate pairSeries + (j : ℤ) + 1) :=
  ⟨by simp [pairSeries], by decide,
    C10_horizon_and_dates 2 trivParams pairSeries (by simp [pairSeries]) "ensemble" (by decide)⟩

/-- C6: with fewer than 30 usable rows after feature preparation, the ml
method returns the simple projection unchanged (no error), and the result
carries the method tag "simple". -/
theorem C6_ml_fallback (horizon : ℕ) (p : EngineParams) (rs : List Record)
    (husable : mlUsableRows rs.length < 30) :
    generateLiquidityProjection horizon p rs "ml" =
      Except.ok (simpleProjection horizon rs) ∧
    (mlProjection horizon p rs).method = "simple" := by
  have he : mlProjection horizon p rs = simpleProjection horizon rs := by
    simp only [mlProjection, if_pos husable]
  refine ⟨?_, by rw [he]; simp [simpleProjection]⟩
  simp [generateLiquidityProjection, he]

/-- Ten-day series: feature preparation leaves zero usable rows. -/
def tenSeries : List Record := (List.range 10).map (fun (i : ℕ) => ⟨(i : ℤ), 100, 50⟩)

/-- C6 witness at the ten-day series. -/
theorem C6_witness :
    mlUsableRows tenSeries.length < 30 ∧
      generateLiquidityProjection 5 trivParams tenSeries "ml" =
        Except.ok (simpleProjection 5 tenSeries) ∧
      (mlProjection 5 trivParams tenSeries).method = "simple" :=
  ⟨by decide, (C6_ml_fallback 5 trivParams tenSeries (by decide)).1,
    (C6_ml_fallback 5 trivParams tenSeries (by decide)).2⟩

/-- C9: at every step whose projected net flow is strictly negative, the
simple method's confidence interval is inverted (`0.8×` bound strictly
above the `1.2×` bound), and likewise for the ensemble band
(`0.85×` / `1.15×`). -/
theorem C9_inverted_bands (horizon : ℕ) (p : EngineParams) (rs : List Record) :
    (∀ e ∈ (simpleProjection horizon rs).projections,
        e.net_cash_flow < 0 → e.confidence_upper < e.confidence_lower) ∧
    (∀ e ∈ (ensembleProjection horizon p rs).projections,
        e.net_cash_flow < 0 → e.confidence_upper < e.confidence_lower) := by
  constructor
  · intro e he hneg
    simp only [simpleProjection] at he
    obtain ⟨hl, hu⟩ := simpleEntries_bounds _ _ _ _ _ _ e he
    rw [hl, hu]
    nlinarith
  · intro e he hneg
    simp only [ensembleProjection] at he
    obtain ⟨hl, hu⟩ := ensembleEntries_bounds _ _ _ _ e he
    rw [hl, hu]
    nlinarith

/-- Two-day series with constant net flow `-10`. -/
def negSeries : List Record := [⟨0, 0, 10⟩, ⟨1, 0, 10⟩]

/-- C9 witness: the single projected step of the simple method on the
`-10`-flow series has flow `-10` and inverted band `[-8, -12]`. -/
theorem C9_witness :
    ∃ e ∈ (simpleProjection 1 negSeries).projections,
      e.net_cash_flow < 0 ∧ e.confidence_upper < e.confidence_lower := by
  have hlist : (simpleProjection 1 negSeries).projections =
      [⟨2, -10, -30, -8, -12⟩] := by
    norm_num [simpleProjection, simpleEntries, sortedRecords, List.insertionSort,
      List.orderedInsert, netFlows, netFlow, negSeries, recentAverage, mean,
      polyfitSlope, lastCumulative, maxDate, List.range_succ, List.range_zero,
      List.zipWith]
  have hmem : (⟨2, -10, -30, -8, -12⟩ : ProjEntry) ∈
      (simpleProjection 1 negSeries).projections := by
    rw [hlist]
    exact List.mem_singleton_self _
  have hneg : ((⟨2, -10, -30, -8, -12⟩ : ProjEntry)).net_cash_flow < 0 := by norm_num
  exact ⟨_, hmem, hneg, (C9_inverted_bands 1 trivParams negSeries).1 _ hmem hneg⟩

/-- C5: the ensemble's per-step net flow is the `0.2 / 0.3 / 0.5` weighted
sum of the three sub-methods' step flows, and its cumulative balance is
re-accumulated from the blended flows starting at the last historical
cumulative balance. -/
theorem C5_blend (horizon : ℕ) (p : EngineParams) (rs : List Record) (hne : rs ≠ [])
    (i : ℕ) (hi : i < horizon) :
    ((ensembleProjection horizon p rs).projections.getD i dfltEntry).net_cash_flow =
        0.2 * ((simpleProjection horizon rs).projections.getD i dfltEntry).net_cash_flow +
          0.3 * ((advancedProjection horizon p rs).projections.getD i dfltEntry).net_cash_flow +
          0.5 * ((mlProjection horizon p rs).projections.getD i dfltEntry).net_cash_flow ∧
    ((ensembleProjection horizon p rs).projections.getD i dfltEntry).cumulative_cash =
        lastCumulative rs +
          ((List.range (i + 1)).map (fun k =>
            ((ensembleProjection horizon p rs).projections.getD k dfltEntry).net_cash_flow)).sum := by
  have _ := hne
  have hs : i < (simpleProjection horizon rs).projections.length := by
    rw [simpleProjection_plen]
    exact hi
  have ha : i < (advancedProjection horizon p rs).projections.length := by
    rw [advancedProjection_plen]
    exact hi
  have hm : i < (mlProjection horizon p rs).projections.length := by
    rw [mlProjection_plen]
    exact hi
  constructor
  · simp only [ensembleProjection]
    exact ensembleEntries_flow _ _ _ _ i hs ha hm
  · simp only [ensembleProjection]
    exact ensembleEntries_cum _ _ _ _ i hs ha hm

/-- C5 witness at the two-day series, horizon 1, step 0. -/
theorem C5_witness :
    pairSeries ≠ [] ∧ 0 < 1 ∧
      (((ensembleProjection 1 trivParams pairSeries).projections.getD 0 dfltEntry).net_cash_flow =
          0.2 * ((simpleProjection 1 pairSeries).projections.getD 0 dfltEntry).net_cash_flow +
            0.3 * ((advancedProjection 1 trivParams pairSeries).projections.getD 0 dfltEntry).net_cash_flow +
            0.5 * ((mlProjection 1 trivParams pairSeries).projections.getD 0 dfltEntry).net_cash_flow ∧
        ((ensembleProjection 1 trivParams pairSeries).projections.getD 0 dfltEntry).cumulative_cash =
          lastCumulative pairSeries +
            ((List.range (0 + 1)).map (fun k =>
              ((ensembleProjection 1 trivParams pairSeries).projections.getD k dfltEntry).net_cash_flow)).sum) :=
  ⟨by simp [pairSeries], by norm_num,
    C5_blend 1 trivParams pairSeries (by simp [pairSeries]) 0 (by norm_num)⟩

theorem mean_replicate (n : ℕ) (hn : n ≠ 0) (x : ℚ) :
    mean (List.replicate n x) = x := by
  unfold mean
  rw [List.sum_replicate, List.length_replicate, nsmul_eq_mul]
  have hz : (n : ℚ) ≠ 0 := Nat.cast_ne_zero.mpr hn
  field_simp

theorem getD_replicate_of_lt (n i : ℕ) (x : ℚ) (h : i < n) :
    (List.replicate n x).getD i 0 = x := by
  rw [List.getD_eq_getElem _ _ (by simpa using h)]
  exact List.getElem_replicate _ _

/-- A percentile of a constant sample is the constant, for levels in
`[0, 100)` and at least two observations. -/
theorem percentile_replicate (q : ℚ) (n : ℕ) (hn : 2 ≤ n) (hq0 : 0 ≤ q)
    (hq1 : q < 100) (x : ℚ) : percentile q (List.replicate n x) = x := by
  have hsQ : sortedQ (List.replicate n x) = List.replicate n x :=
    List.Sorted.insertionSort_eq (sorted_replicate n x)
  unfold percentile
  rw [hsQ, List.length_replicate]
  have hn1 : (1 : ℚ) ≤ (n : ℚ) - 1 := by
    have h2 : (2 : ℚ) ≤ (n : ℚ) := by exact_mod_cast hn
    linarith
  have h0 : 0 ≤ q / 100 * ((n : ℚ) - 1) := by
    apply mul_nonneg (div_nonneg hq0 (by norm_num))
    linarith
  have hub : q / 100 * ((n : ℚ) - 1) < (n : ℚ) - 1 := by
    have hq : q / 100 < 1 := (div_lt_one (by norm_num)).mpr hq1
    calc q / 100 * ((n : ℚ) - 1) < 1 * ((n : ℚ) - 1) :=
          mul_lt_mul_of_pos_right hq (by linarith)
      _ = (n : ℚ) - 1 := one_mul _
  have hkle : ((Nat.floor (q / 100 * ((n : ℚ) - 1)) : ℕ) : ℚ) ≤
      q / 100 * ((n : ℚ) - 1) := Nat.floor_le h0
  have hkn : Nat.floor (q / 100 * ((n : ℚ) - 1)) + 1 < n := by
    have hc : ((Nat.floor (q / 100 * ((n : ℚ) - 1)) : ℕ) : ℚ) + 1 < (n : ℚ) := by
      linarith
    exact_mod_cast hc
  unfold interpAt
  rw [getD_replicate_of_lt n _ x (Nat.lt_of_succ_lt hkn),
    getD_replicate_of_lt n _ x hkn]
  ring

theorem sum_zipWith_mul_replicate (c : ℚ) :
    ∀ (xs : List ℚ) (n : ℕ), n = xs.length →
      (List.zipWith (· * ·) xs (List.replicate n c)).sum = xs.sum * c := by
  intro xs
  induction xs with
  | nil =>
      intro n hn
      subst hn
      simp
  | cons y ys ih =>
      intro n hn
      subst hn
      rw [List.length_cons, List.replicate_succ]
      simp only [List.zipWith_cons_cons, List.sum_cons]
      rw [ih ys.length rfl]
      ring

theorem simpleEntries_flow_const (r : ℚ) (dL : ℤ) (steps : ℕ) :
    ∀ (cum : ℚ) (i : ℕ), ∀ e ∈ simpleEntries r 0 dL cum i steps,
      e.net_cash_flow = r := by
  induction steps with
  | zero => intro cum i e he; simp [simpleEntries] at he
  | succ st ih =>
      intro cum i e he
      simp only [simpleEntries, List.mem_cons] at he
      rcases he with rfl | he
      · show r + 0 * ((i : ℚ) + 1) = r
        ring
      · exact ih _ _ e he

/-- Sixty days of `cash_in = 1000`, `cash_out = 800`. -/
def flatSeries : List Record := (List.range 60).map (fun (i : ℕ) => ⟨(i : ℤ), 1000, 800⟩)

theorem flatSeries_sorted : sortedRecords flatSeries = flatSeries := by
  apply List.Sorted.insertionSort_eq
  unfold flatSeries
  rw [List.Sorted, List.pairwise_map]
  exact List.Pairwise.imp (fun hab => Int.ofNat_le.mpr hab) (List.sorted_le_range 60)

theorem flatSeries_flows : netFlows flatSeries = List.replicate 60 200 := by
  unfold netFlows flatSeries
  rw [List.map_map, List.eq_replicate_iff]
  refine ⟨by rw [List.length_map, List.length_range], ?_⟩
  intro b hb
  simp only [List.mem_map, List.mem_range, Function.comp] at hb
  obtain ⟨i, _, rfl⟩ := hb
  norm_num [netFlow]

/-- C8: on the flat 60-day series with `cash_in = 1000`, `cash_out = 800`:
the derived net flow is the constant `200`; the net-flow sample variance is
`0` (equivalently, the reported standard-deviation volatility is `0`);
VaR₉₅ and VaR₉₉ coincide at `200` (zero VaR spread); the fitted slope of
the simple method is exactly `0`; and every one of the 90 projected steps
has point estimate `200` with confidence band exactly `[160, 240]`
(`200 ± 20%`). -/
theorem C8_flat_roundtrip :
    netFlows flatSeries = List.replicate 60 200 ∧
    sampleVar (netFlows flatSeries) = 0 ∧
    var95 (netFlows flatSeries) = 200 ∧
    var99 (netFlows flatSeries) = 200 ∧
    polyfitSlope (netFlows (sortedRecords flatSeries)) = 0 ∧
    ∀ e ∈ (simpleProjection 90 flatSeries).projections,
      e.net_cash_flow = 200 ∧ e.confidence_lower = 160 ∧ e.confidence_upper = 240 := by
  have hflows : netFlows flatSeries = List.replicate 60 200 := flatSeries_flows
  have hs : netFlows (sortedRecords flatSeries) = List.replicate 60 200 := by
    rw [flatSeries_sorted]
    exact hflows
  have hmean : mean (List.replicate 60 (200 : ℚ)) = 200 :=
    mean_replicate 60 (by norm_num) 200
  have hvar : sampleVar (netFlows flatSeries) = 0 := by
    rw [hflows]
    unfold sampleVar
    simp only [hmean, List.map_replicate, List.sum_replicate, List.length_replicate]
    norm_num
  have h95 : var95 (netFlows flatSeries) = 200 := by
    rw [hflows]
    exact percentile_replicate 5 60 (by norm_num) (by norm_num) (by norm_num) 200
  have h99 : var99 (netFlows flatSeries) = 200 := by
    rw [hflows]
    exact percentile_replicate 1 60 (by norm_num) (by norm_num) (by norm_num) 200
  have hslopeR : polyfitSlope (List.replicate 60 (200 : ℚ)) = 0 := by
    simp only [polyfitSlope]
    rw [List.length_replicate]
    rw [sum_zipWith_mul_replicate 200 _ 60 (by rw [List.length_map, List.length_range])]
    rw [List.sum_replicate, nsmul_eq_mul]
    apply div_eq_zero_iff.mpr
    left
    ring
  have hslope : polyfitSlope (netFlows (sortedRecords flatSeries)) = 0 := by
    rw [hs]
    exact hslopeR
  have hrec : recentAverage (List.replicate 60 (200 : ℚ)) = 200 := by
    unfold recentAverage
    rw [List.length_replicate, List.drop_replicate,
      show (60 - (60 - 7) : ℕ) = 7 from rfl]
    exact mean_replicate 7 (by norm_num) 200
  refine ⟨hflows, hvar, h95, h99, hslope, ?_⟩
  intro e he
  simp only [simpleProjection] at he
  rw [hs, hrec, hslopeR] at he
  have hflow := simpleEntries_flow_const 200 (maxDate flatSeries) 90 _ _ e he
  obtain ⟨hl, hu⟩ := simpleEntries_bounds 200 0 (maxDate flatSeries) 90 _ _ e he
  refine ⟨hflow, ?_, ?_⟩
  · rw [hl, hflow]
    norm_num
  · rw [hu, hflow]
    norm_num

/-- C8 witness: the first projected step of the flat-series simple
projection, obtained through the round-trip theorem. -/
theorem C8_witness :
    ((simpleProjection 90 flatSeries).projections.getD 0 dfltEntry).net_cash_flow = 200 ∧
    ((simpleProjection 90 flatSeries).projections.getD 0 dfltEntry).confidence_lower = 160 ∧
    ((simpleProjection 90 flatSeries).projections.getD 0 dfltEntry).confidence_upper = 240 := by
  have hlen : 0 < (simpleProjection 90 flatSeries).projections.length := by
    rw [simpleProjection_plen]
    norm_num
  have hm : (simpleProjection 90 flatSeries).projections.getD 0 dfltEntry ∈
      (simpleProjection 90 flatSeries).projections := by
    rw [List.getD_eq_getElem _ _ hlen]
    exact List.getElem_mem hlen
  exact C8_flat_roundtrip.2.2.2.2.2 _ hm

end SageOrb
